import Mathlib

/-!
Shallow embedding of src/src/services/markets.ts: a stock/crypto quote
fetcher with a rate-limit circuit breaker and a last-good cache.

Modelling conventions: JS numbers are rationals (NaN is not representable;
the numeric falsy check of the JS operator a || b is modelled as equality
with 0); times are natural numbers of milliseconds; the module-level
mutable variables rateLimitedUntil and lastSuccessfulResults are threaded
explicitly through a ModuleState; HTTP transport behaviour is an oracle
value (StockOutcome / CryptoOutcome) supplied per request; thrown JS
errors are modelled as outcome constructors that the code's catch blocks
turn into return values, so every embedded operation is a total function.
-/

namespace Markets

/-- Length of the rate-limit cooldown window in milliseconds (the source
constant COOLDOWN_MS = 5 * 60 * 1000). -/
def COOLDOWN_MS : ℕ := 5 * 60 * 1000

/-- A stock quote record as produced by fetchStockQuote: the MarketData
shape of the source plus the optional rateLimited flag (false when the
flag is absent).  A null price or change is none. -/
structure MarketData where
  symbol : String
  name : String
  display : String
  price : Option ℚ
  change : Option ℚ
  rateLimited : Bool
deriving Repr, DecidableEq

/-- The module-level mutable state of the source: the cooldown expiry
timestamp rateLimitedUntil (ms since epoch) and the last-good cache
lastSuccessfulResults. -/
structure ModuleState where
  rateLimitedUntil : ℕ
  lastSuccessfulResults : List MarketData
deriving Repr, DecidableEq

/-- isRateLimited(): Date.now() < rateLimitedUntil (the log line has no
modelled effect). -/
def isRateLimited (now : ℕ) (st : ModuleState) : Bool :=
  decide (now < st.rateLimitedUntil)

/-- triggerRateLimit(): rateLimitedUntil = Date.now() + COOLDOWN_MS. -/
def triggerRateLimit (now : ℕ) (st : ModuleState) : ModuleState :=
  { st with rateLimitedUntil := now + COOLDOWN_MS }

/-- The meta object of a parsed Yahoo response: regularMarketPrice with
the two optional previous-close fields. -/
structure Meta where
  regularMarketPrice : ℚ
  chartPreviousClose : Option ℚ
  previousClose : Option ℚ
deriving Repr, DecidableEq

/-- What happens after a 2xx response when the body is consumed:
response.json() (or the chart/result field access) throws, or parsing
succeeds and chart.result[0]?.meta is absent or present. -/
inductive BodyOutcome where
  | jsonThrow (msgHas429 : Bool)
  | parsed (meta : Option Meta)
deriving Repr, DecidableEq

/-- Transport behaviour of one stock-quote request: fetchWithProxy itself
rejects (with an error message that does or does not mention 429), or a
response with some HTTP status arrives and its body behaves as given. -/
inductive StockOutcome where
  | netThrow (msgHas429 : Bool)
  | resp (status : ℕ) (body : BodyOutcome)
deriving Repr, DecidableEq

/-- response.ok of the fetch API: status in 200..299. -/
def respOk (status : ℕ) : Bool :=
  decide (200 ≤ status) && decide (status < 300)

/-- Whether a big-endian digit list contains the consecutive digits 4,2,9. -/
def hasSeq429 : List ℕ → Bool
  | 4 :: 2 :: 9 :: _ => true
  | _ :: rest => hasSeq429 rest
  | [] => false

/-- Big-endian decimal digits of n, computed with fuel (fuel ≥ number of
digits suffices; n itself always does). -/
def digitsRev : ℕ → ℕ → List ℕ
  | 0, _ => []
  | _ + 1, 0 => []
  | fuel + 1, n + 1 => (n + 1) % 10 :: digitsRev fuel ((n + 1) / 10)

/-- String(new Error("HTTP " + status)).includes("429"): the only digits in
the message come from the decimal rendering of the status. -/
def natHas429 (n : ℕ) : Bool :=
  hasSeq429 (digitsRev n n).reverse

/-- The JS expression a || b on an optional numeric a: a number is falsy
exactly when it is 0 (NaN is outside the rational embedding). -/
def jsOrQ : Option ℚ → ℚ → ℚ
  | some x, b => if x = 0 then b else x
  | none, b => b

/-- prevClose = meta.chartPreviousClose || meta.previousClose || price. -/
def prevCloseOf (m : Meta) : ℚ :=
  jsOrQ m.chartPreviousClose (jsOrQ m.previousClose m.regularMarketPrice)

/-- The quote fetchStockQuote returns, as a function of whether the guard
check at entry saw the limited state and of the transport outcome. -/
def fetchQuoteResult (limited : Bool) (symbol name display : String)
    (o : StockOutcome) : MarketData :=
  if limited then ⟨symbol, name, display, none, none, false⟩
  else
    match o with
    | .netThrow h => ⟨symbol, name, display, none, none, h⟩
    | .resp status body =>
      if status = 429 then ⟨symbol, name, display, none, none, true⟩
      else if respOk status then
        match body with
        | .jsonThrow h => ⟨symbol, name, display, none, none, h⟩
        | .parsed none => ⟨symbol, name, display, none, none, false⟩
        | .parsed (some m) =>
          ⟨symbol, name, display, some m.regularMarketPrice,
            some ((m.regularMarketPrice - prevCloseOf m) / prevCloseOf m * 100),
            false⟩
      else ⟨symbol, name, display, none, none, natHas429 status⟩

/-- Whether this call runs triggerRateLimit (status 429, or a caught error
whose message mentions 429). -/
def quoteTriggers (limited : Bool) (o : StockOutcome) : Bool :=
  if limited then false
  else
    match o with
    | .netThrow h => h
    | .resp status body =>
      if status = 429 then true
      else if respOk status then
        match body with
        | .jsonThrow h => h
        | .parsed _ => false
      else natHas429 status

/-- fetchStockQuote(symbol, name, display): returns the quote and the
module state after the call (the guard may have been triggered). -/
def fetchStockQuote (now : ℕ) (st : ModuleState) (symbol name display : String)
    (o : StockOutcome) : MarketData × ModuleState :=
  (fetchQuoteResult (isRateLimited now st) symbol name display o,
   if quoteTriggers (isRateLimited now st) o then triggerRateLimit now st else st)

/-- One (symbol, name, display) tuple of the fetchMultipleStocks input. -/
structure SymbolSpec where
  symbol : String
  name : String
  display : String
deriving Repr, DecidableEq

/-- One chunk under Promise.all: every member's guard check runs in the
synchronous prelude before any response settles, so all members see the
pre-chunk state; each member's quote depends only on its own outcome, and
the triggers (all at the same wall-clock time) leave rateLimitedUntil at
now + COOLDOWN_MS when any member triggered. -/
def processChunk (now : ℕ) (st : ModuleState)
    (chunk : List (SymbolSpec × StockOutcome)) : List MarketData × ModuleState :=
  (chunk.map fun p =>
     fetchQuoteResult (isRateLimited now st) p.1.symbol p.1.name p.1.display p.2,
   if chunk.any (fun p => quoteTriggers (isRateLimited now st) p.2) then
     triggerRateLimit now st
   else st)

/-- Helper for chunkArray: chunk size k + 1, structural recursion on a
fuel argument (fuel ≥ list length always suffices, since every step
consumes at least one element; the fuel-exhausted branch is unreachable
from chunkArray). -/
def chunkArrayGo (k : ℕ) : ℕ → List α → List (List α)
  | _, [] => []
  | 0, a :: as => [a :: as]
  | fuel + 1, a :: as => (a :: as.take k) :: chunkArrayGo k fuel (as.drop k)

/-- Modelled from the spec: chunkArray (the array-chunk utility imported
from the utilities module, which is not under src/) partitions a list into
consecutive chunks of the given size, preserving input order within and
across chunks.  A size of 0 is treated as 1 (the spec leaves it
unspecified; no caller in the source passes 0). -/
def chunkArray (l : List α) (n : ℕ) : List (List α) :=
  chunkArrayGo (n - 1) l.length l

/-- The options object of fetchMultipleStocks.  The callback itself is
modelled by recording the argument of every invocation, so only its
presence is kept here. -/
structure FetchOptions where
  batchSize : Option ℕ
  delayMs : Option ℕ
  onBatchProvided : Bool
deriving Repr, DecidableEq

/-- Observable outcome of a fetchMultipleStocks run: the returned list,
the final module state, the arguments passed to onBatch in order, and the
symbols for which a network request was actually issued. -/
structure RunOut where
  results : List MarketData
  state : ModuleState
  calls : List (List MarketData)
  fetched : List SymbolSpec
deriving Repr, DecidableEq

/-- The chunk loop of fetchMultipleStocks.  time i is the wall-clock time
at which chunk i starts (the inter-chunk delay only advances the clock).
Each iteration: break if the guard is limited; fetch the chunk; break
(dropping the chunk's results) if any quote carries the rate-limited flag;
otherwise append the results, invoke onBatch with the non-null-price
subset so far, and continue. -/
def runChunks (time : ℕ → ℕ) (onB : Bool) :
    List (List (SymbolSpec × StockOutcome)) → ℕ → ModuleState →
    List MarketData → RunOut
  | [], _, st, results => ⟨results, st, [], []⟩
  | chunk :: rest, idx, st, results =>
    if isRateLimited (time idx) st then ⟨results, st, [], []⟩
    else if ((processChunk (time idx) st chunk).1.any fun r => r.rateLimited) then
      ⟨results, (processChunk (time idx) st chunk).2, [], chunk.map fun p => p.1⟩
    else
      let st' := (processChunk (time idx) st chunk).2
      let results' := results ++ (processChunk (time idx) st chunk).1
      let out := runChunks time onB rest (idx + 1) st' results'
      ⟨out.results, out.state,
       (if onB then [results'.filter fun r => r.price.isSome] else []) ++ out.calls,
       (chunk.map fun p => p.1) ++ out.fetched⟩

/-- fetchMultipleStocks(symbols, options): the input pairs each symbol
with its oracle transport outcome for this run.  time 0 is the entry
time, time i the start time of chunk i. -/
def fetchMultipleStocks (time : ℕ → ℕ) (st : ModuleState)
    (pairs : List (SymbolSpec × StockOutcome)) (opts : FetchOptions) : RunOut :=
  if isRateLimited (time 0) st then
    if 0 < st.lastSuccessfulResults.length then
      ⟨st.lastSuccessfulResults, st,
       if opts.onBatchProvided then [st.lastSuccessfulResults] else [], []⟩
    else ⟨[], st, [], []⟩
  else
    let out := runChunks time opts.onBatchProvided
      (chunkArray pairs (opts.batchSize.getD 2)) 0 st []
    let successful := out.results.filter fun r => r.price.isSome
    ⟨successful,
     if 0 < successful.length then
       { out.state with lastSuccessfulResults := successful }
     else out.state,
     out.calls, out.fetched⟩

/-- One entry of the configured CRYPTO_MAP: provider id maps to display
name and symbol. -/
structure CryptoInfo where
  name : String
  symbol : String
deriving Repr, DecidableEq

/-- The CryptoData shape of the source. -/
structure CryptoData where
  name : String
  symbol : String
  price : ℚ
  change : ℚ
deriving Repr, DecidableEq

/-- Body behaviour of the crypto response: response.json() throws, or it
parses to an object keyed by provider id holding usd and usd_24h_change. -/
inductive CryptoBody where
  | jsonThrow
  | parsed (data : List (String × (ℚ × ℚ)))
deriving Repr, DecidableEq

/-- Transport behaviour of the single crypto request. -/
inductive CryptoOutcome where
  | netThrow
  | resp (status : ℕ) (body : CryptoBody)
deriving Repr, DecidableEq

/-- fetchCrypto(): maps over the configured CRYPTO_MAP entries in declared
order (Object.entries iterates string keys in insertion order, modelled as
a list); a missing id defaults price and change to 0; any throw is caught
and yields the empty list. -/
def fetchCrypto (cryptoMap : List (String × CryptoInfo))
    (o : CryptoOutcome) : List CryptoData :=
  match o with
  | .netThrow => []
  | .resp status body =>
    if respOk status then
      match body with
      | .jsonThrow => []
      | .parsed data =>
        cryptoMap.map fun p =>
          ⟨p.2.name, p.2.symbol,
           ((data.lookup p.1).map Prod.fst).getD 0,
           ((data.lookup p.1).map Prod.snd).getD 0⟩
    else []

/-- A (symbol, outcome) pair whose request succeeds with price p and no
previous-close fields. -/
def okQuote (s : String) (p : ℚ) : SymbolSpec × StockOutcome :=
  (⟨s, s, s⟩, .resp 200 (.parsed (some ⟨p, none, none⟩)))

/-- A (symbol, outcome) pair whose request gets an HTTP 429 response. -/
def rlQuote (s : String) : SymbolSpec × StockOutcome :=
  (⟨s, s, s⟩, .resp 429 (.parsed none))

/-- Six symbols forming three chunks of two; the second chunk contains a
rate-limited response (symbol D) next to a successful one (symbol C). -/
def pairsC1 : List (SymbolSpec × StockOutcome) :=
  [okQuote "A" 1, okQuote "B" 2, okQuote "C" 3, rlQuote "D",
   okQuote "E" 5, okQuote "F" 6]

/-- The reference previous-close selection as claim C7's words describe
it — preferring the chart-specific field WHEN PRESENT (not when truthy).
Written from the spec's words only, for the refinement comparison with
prevCloseOf, which embeds the source's truthiness-based selection. -/
def specPrevClose (m : Meta) : ℚ :=
  match m.chartPreviousClose with
  | some x => x
  | none =>
    match m.previousClose with
    | some y => y
    | none => m.regularMarketPrice

theorem isRateLimited_iff (now : ℕ) (st : ModuleState) :
    isRateLimited now st = true ↔ now < st.rateLimitedUntil := by
  simp [isRateLimited]

theorem fetchQuoteResult_rateLimited (limited : Bool) (symbol name display : String)
    (o : StockOutcome) :
    (fetchQuoteResult limited symbol name display o).rateLimited
      = quoteTriggers limited o := by
  rcases limited
  · rcases o with h | ⟨status, body⟩
    · rfl
    · rcases body with h | (_ | m) <;>
        · simp only [fetchQuoteResult, quoteTriggers]
          split_ifs <;> rfl
  · rfl

theorem fetchQuoteResult_shape (limited : Bool) (symbol name display : String)
    (o : StockOutcome) :
    (fetchQuoteResult limited symbol name display o).symbol = symbol ∧
    (fetchQuoteResult limited symbol name display o).name = name ∧
    (fetchQuoteResult limited symbol name display o).display = display ∧
    ((fetchQuoteResult limited symbol name display o).price.isSome ↔
      (fetchQuoteResult limited symbol name display o).change.isSome) := by
  rcases limited <;> rcases o with h | ⟨status, body⟩ <;>
    simp only [fetchQuoteResult, if_true, if_false] <;> try simp
  split_ifs <;> try simp
  rcases body with h | m
  · simp
  · rcases m with _ | m <;> simp

/-- Claim C2: for every symbol, name and display input and every transport
behaviour (success, any HTTP status, thrown error, malformed JSON),
fetchStockQuote always returns a record whose symbol, name and display
equal the inputs and whose price and change are either both numbers or
both null; no exception propagates (the embedding is a total function and
every thrown-error outcome maps to a returned record). -/
theorem c2_fetchStockQuote_total (now : ℕ) (st : ModuleState)
    (symbol name display : String) (o : StockOutcome) :
    (fetchStockQuote now st symbol name display o).1.symbol = symbol ∧
    (fetchStockQuote now st symbol name display o).1.name = name ∧
    (fetchStockQuote now st symbol name display o).1.display = display ∧
    ((fetchStockQuote now st symbol name display o).1.price.isSome ↔
      (fetchStockQuote now st symbol name display o).1.change.isSome) :=
  fetchQuoteResult_shape (isRateLimited now st) symbol name display o

/-- Claim C3: after the rate-limit guard is triggered at time t,
isRateLimited reports true at every time strictly before t + 300000 ms and
false at every time at or after t + 300000 ms. -/
theorem c3_cooldown_window (st : ModuleState) (t u : ℕ) :
    (u < t + 300000 → isRateLimited u (triggerRateLimit t st) = true) ∧
    (t + 300000 ≤ u → isRateLimited u (triggerRateLimit t st) = false) := by
  constructor <;> intro h <;>
    simp only [isRateLimited, triggerRateLimit, COOLDOWN_MS,
      decide_eq_true_eq, decide_eq_false_iff_not] <;> omega

theorem c3_cooldown_window_witness :
    isRateLimited 299999 (triggerRateLimit 0 ⟨0, []⟩) = true ∧
    isRateLimited 300000 (triggerRateLimit 0 ⟨0, []⟩) = false :=
  ⟨(c3_cooldown_window ⟨0, []⟩ 0 299999).1 (by decide),
   (c3_cooldown_window ⟨0, []⟩ 0 300000).2 (by decide)⟩

theorem processChunk_until (now : ℕ) (st : ModuleState)
    (chunk : List (SymbolSpec × StockOutcome)) :
    (processChunk now st chunk).2.rateLimitedUntil = st.rateLimitedUntil ∨
    (processChunk now st chunk).2.rateLimitedUntil = now + COOLDOWN_MS := by
  simp only [processChunk]
  split
  · right; rfl
  · left; rfl

theorem processChunk_cache (now : ℕ) (st : ModuleState)
    (chunk : List (SymbolSpec × StockOutcome)) :
    (processChunk now st chunk).2.lastSuccessfulResults
      = st.lastSuccessfulResults := by
  simp only [processChunk]
  split <;> rfl

theorem runChunks_until_mono (time : ℕ → ℕ) (onB : Bool)
    (hm : ∀ i, time i ≤ time (i + 1)) :
    ∀ (chunks : List (List (SymbolSpec × StockOutcome))) (idx : ℕ)
      (st : ModuleState) (results : List MarketData),
      st.rateLimitedUntil ≤ time idx + COOLDOWN_MS →
      st.rateLimitedUntil ≤ (runChunks time onB chunks idx st results).state.rateLimitedUntil := by
  intro chunks
  induction chunks with
  | nil =>
    intro idx st results h
    simp [runChunks]
  | cons chunk rest ih =>
    intro idx st results h
    simp only [runChunks]
    split
    · exact le_refl _
    · rcases processChunk_until (time idx) st chunk with heq | heq <;>
      · split
        · dsimp only
          omega
        · have h1 : (processChunk (time idx) st chunk).2.rateLimitedUntil
              ≤ time (idx + 1) + COOLDOWN_MS := by
            have := hm idx
            omega
          have h2 := ih (idx + 1) (processChunk (time idx) st chunk).2
            (results ++ (processChunk (time idx) st chunk).1) h1
          dsimp only
          omega

theorem runChunks_cache (time : ℕ → ℕ) (onB : Bool) :
    ∀ (chunks : List (List (SymbolSpec × StockOutcome))) (idx : ℕ)
      (st : ModuleState) (results : List MarketData),
      (runChunks time onB chunks idx st results).state.lastSuccessfulResults
        = st.lastSuccessfulResults := by
  intro chunks
  induction chunks with
  | nil =>
    intro idx st results
    simp [runChunks]
  | cons chunk rest ih =>
    intro idx st results
    simp only [runChunks]
    split
    · rfl
    · split
      · exact processChunk_cache (time idx) st chunk
      · rw [ih]
        exact processChunk_cache (time idx) st chunk

/-- Claim C4: the cooldown expiry is monotone.  Every trigger sets it to
now + COOLDOWN_MS, which never shortens an expiry set at an earlier or
equal time (expressed as the hypothesis that the stored expiry is at most
now + COOLDOWN_MS); fetchStockQuote and fetchMultipleStocks (under a
non-decreasing clock) never decrease the stored expiry. -/
theorem c4_cooldown_monotone :
    (∀ (st : ModuleState) (t : ℕ),
        (triggerRateLimit t st).rateLimitedUntil = t + COOLDOWN_MS) ∧
    (∀ (st : ModuleState) (t : ℕ), st.rateLimitedUntil ≤ t + COOLDOWN_MS →
        st.rateLimitedUntil ≤ (triggerRateLimit t st).rateLimitedUntil) ∧
    (∀ (now : ℕ) (st : ModuleState) (symbol name display : String)
        (o : StockOutcome), st.rateLimitedUntil ≤ now + COOLDOWN_MS →
        st.rateLimitedUntil
          ≤ (fetchStockQuote now st symbol name display o).2.rateLimitedUntil) ∧
    (∀ (time : ℕ → ℕ) (st : ModuleState)
        (pairs : List (SymbolSpec × StockOutcome)) (opts : FetchOptions),
        (∀ i, time i ≤ time (i + 1)) →
        st.rateLimitedUntil ≤ time 0 + COOLDOWN_MS →
        st.rateLimitedUntil
          ≤ (fetchMultipleStocks time st pairs opts).state.rateLimitedUntil) := by
  refine ⟨fun st t => rfl, fun st t h => h, ?_, ?_⟩
  · intro now st symbol name display o h
    simp only [fetchStockQuote]
    split
    · exact h
    · exact le_refl _
  · intro time st pairs opts hm h0
    simp only [fetchMultipleStocks]
    split
    · split <;> exact le_refl _
    · have hrun := runChunks_until_mono time opts.onBatchProvided hm
        (chunkArray pairs (opts.batchSize.getD 2)) 0 st [] h0
      split
      · exact hrun
      · exact hrun

theorem c4_cooldown_monotone_witness :
    (0 : ℕ) ≤ (triggerRateLimit 5 ⟨0, []⟩).rateLimitedUntil ∧
    (0 : ℕ) ≤ (fetchStockQuote 5 ⟨0, []⟩ "A" "A" "A" (.netThrow true)).2.rateLimitedUntil ∧
    (0 : ℕ) ≤ (fetchMultipleStocks (fun _ => 0) ⟨0, []⟩ [] ⟨none, none, false⟩).state.rateLimitedUntil :=
  ⟨c4_cooldown_monotone.2.1 ⟨0, []⟩ 5 (by decide),
   c4_cooldown_monotone.2.2.1 5 ⟨0, []⟩ "A" "A" "A" (.netThrow true) (by decide),
   c4_cooldown_monotone.2.2.2 (fun _ => 0) ⟨0, []⟩ [] ⟨none, none, false⟩
     (fun i => le_refl 0) (by decide)⟩

/-- Claim C5: invoked while the guard is limited, fetchMultipleStocks
makes no network call; with a non-empty last-good cache it invokes the
callback exactly once with the cached batch and returns it, otherwise it
invokes no callback and returns the empty list.  The state is untouched. -/
theorem c5_limited_uses_cache (time : ℕ → ℕ) (st : ModuleState)
    (pairs : List (SymbolSpec × StockOutcome)) (opts : FetchOptions)
    (h : isRateLimited (time 0) st = true) :
    (fetchMultipleStocks time st pairs opts).fetched = [] ∧
    (fetchMultipleStocks time st pairs opts).state = st ∧
    (st.lastSuccessfulResults ≠ [] →
      (fetchMultipleStocks time st pairs opts).results = st.lastSuccessfulResults ∧
      (opts.onBatchProvided = true →
        (fetchMultipleStocks time st pairs opts).calls = [st.lastSuccessfulResults]) ∧
      (opts.onBatchProvided = false →
        (fetchMultipleStocks time st pairs opts).calls = [])) ∧
    (st.lastSuccessfulResults = [] →
      (fetchMultipleStocks time st pairs opts).results = [] ∧
      (fetchMultipleStocks time st pairs opts).calls = []) := by
  rcases hc : st.lastSuccessfulResults with _ | ⟨a, l⟩
  · simp [fetchMultipleStocks, h, hc]
  · cases hb : opts.onBatchProvided <;> simp [fetchMultipleStocks, h, hc, hb]

theorem c5_limited_uses_cache_witness :
    (fetchMultipleStocks (fun _ => 0) ⟨7, [⟨"A", "A", "A", some 1, some 0, false⟩]⟩
        [] ⟨none, none, true⟩).results = [⟨"A", "A", "A", some 1, some 0, false⟩] ∧
    (fetchMultipleStocks (fun _ => 0) ⟨7, [⟨"A", "A", "A", some 1, some 0, false⟩]⟩
        [] ⟨none, none, true⟩).calls = [[⟨"A", "A", "A", some 1, some 0, false⟩]] ∧
    (fetchMultipleStocks (fun _ => 0) ⟨7, [⟨"A", "A", "A", some 1, some 0, false⟩]⟩
        [] ⟨none, none, true⟩).fetched = [] := by
  have h := c5_limited_uses_cache (fun _ => 0)
    ⟨7, [⟨"A", "A", "A", some 1, some 0, false⟩]⟩ [] ⟨none, none, true⟩ (by decide)
  exact ⟨(h.2.2.1 (by decide)).1, (h.2.2.1 (by decide)).2.1 rfl, h.1⟩

/-- Claim C6: every fetchMultipleStocks run that enters the chunk loop
returns exactly the accumulated results filtered to non-null price; the
last-good cache is overwritten with that filtered set when it is
non-empty and is left unchanged when every accumulated result has null
price. -/
theorem c6_filter_and_cache (time : ℕ → ℕ) (st : ModuleState)
    (pairs : List (SymbolSpec × StockOutcome)) (opts : FetchOptions)
    (h : isRateLimited (time 0) st = false) :
    (fetchMultipleStocks time st pairs opts).results
      = ((runChunks time opts.onBatchProvided
          (chunkArray pairs (opts.batchSize.getD 2)) 0 st []).results.filter
            fun r => r.price.isSome) ∧
    (((runChunks time opts.onBatchProvided
          (chunkArray pairs (opts.batchSize.getD 2)) 0 st []).results.filter
            fun r => r.price.isSome) ≠ [] →
      (fetchMultipleStocks time st pairs opts).state.lastSuccessfulResults
        = ((runChunks time opts.onBatchProvided
            (chunkArray pairs (opts.batchSize.getD 2)) 0 st []).results.filter
              fun r => r.price.isSome)) ∧
    (((runChunks time opts.onBatchProvided
          (chunkArray pairs (opts.batchSize.getD 2)) 0 st []).results.filter
            fun r => r.price.isSome) = [] →
      (fetchMultipleStocks time st pairs opts).state.lastSuccessfulResults
        = st.lastSuccessfulResults) := by
  rcases hq : ((runChunks time opts.onBatchProvided
      (chunkArray pairs (opts.batchSize.getD 2)) 0 st []).results.filter
        fun r => r.price.isSome) with _ | ⟨a, l⟩ <;>
    simp [fetchMultipleStocks, h, hq, runChunks_cache]

theorem c6_filter_and_cache_witness :
    (fetchMultipleStocks (fun _ => 0) ⟨0, []⟩
        [(⟨"A", "A", "A"⟩, .resp 200 (.parsed (some ⟨100, none, none⟩))),
         (⟨"B", "B", "B"⟩, .resp 500 (.parsed none))]
        ⟨some 2, none, false⟩).results
      = ((runChunks (fun _ => 0) false
          (chunkArray
            [(⟨"A", "A", "A"⟩, .resp 200 (.parsed (some ⟨100, none, none⟩))),
             (⟨"B", "B", "B"⟩, .resp 500 (.parsed none))] 2) 0 ⟨0, []⟩ []).results.filter
            fun r => r.price.isSome) ∧
    (fetchMultipleStocks (fun _ => 0) ⟨0, []⟩
        [(⟨"A", "A", "A"⟩, .resp 200 (.parsed (some ⟨100, none, none⟩))),
         (⟨"B", "B", "B"⟩, .resp 500 (.parsed none))]
        ⟨some 2, none, false⟩).state.lastSuccessfulResults
      = ((runChunks (fun _ => 0) false
          (chunkArray
            [(⟨"A", "A", "A"⟩, .resp 200 (.parsed (some ⟨100, none, none⟩))),
             (⟨"B", "B", "B"⟩, .resp 500 (.parsed none))] 2) 0 ⟨0, []⟩ []).results.filter
            fun r => r.price.isSome) := by
  have h := c6_filter_and_cache (fun _ => 0) ⟨0, []⟩
    [(⟨"A", "A", "A"⟩, .resp 200 (.parsed (some ⟨100, none, none⟩))),
     (⟨"B", "B", "B"⟩, .resp 500 (.parsed none))]
    ⟨some 2, none, false⟩ (by decide)
  exact ⟨h.1, h.2.1 (by decide)⟩

theorem runChunks_calls_nil (time : ℕ → ℕ) :
    ∀ (chunks : List (List (SymbolSpec × StockOutcome))) (idx : ℕ)
      (st : ModuleState) (results : List MarketData),
      (runChunks time false chunks idx st results).calls = [] := by
  intro chunks
  induction chunks with
  | nil =>
    intro idx st results
    simp [runChunks]
  | cons chunk rest ih =>
    intro idx st results
    simp only [runChunks]
    split
    · rfl
    · split
      · rfl
      · dsimp only
        simp [ih]

theorem runChunks_calls_chain (time : ℕ → ℕ) (onB : Bool) :
    ∀ (chunks : List (List (SymbolSpec × StockOutcome))) (idx : ℕ)
      (st : ModuleState) (results : List MarketData),
      List.Chain' (fun a b => ∃ t, a ++ t = b)
        ((results.filter fun r => r.price.isSome)
          :: (runChunks time onB chunks idx st results).calls) := by
  intro chunks
  induction chunks with
  | nil =>
    intro idx st results
    simp [runChunks]
  | cons chunk rest ih =>
    intro idx st results
    simp only [runChunks]
    split
    · simp
    · split
      · simp
      · dsimp only
        cases onB
        · rw [runChunks_calls_nil]
          simp
        · simp only [if_true]
          refine List.chain'_cons.mpr ⟨⟨(processChunk (time idx) st chunk).1.filter
            fun r => r.price.isSome, (List.filter_append _ _).symm⟩, ?_⟩
          exact ih (idx + 1) (processChunk (time idx) st chunk).2
            (results ++ (processChunk (time idx) st chunk).1)

/-- Claim C10: within a single fetchMultipleStocks invocation, the
successive arguments passed to onBatch grow monotonically: each
invocation's list extends the previous one (the earlier list is a prefix
of the later one, witnessed by an explicit list extension). -/
theorem c10_onbatch_monotone (time : ℕ → ℕ) (st : ModuleState)
    (pairs : List (SymbolSpec × StockOutcome)) (opts : FetchOptions) :
    List.Chain' (fun a b => ∃ t, a ++ t = b)
      (fetchMultipleStocks time st pairs opts).calls := by
  simp only [fetchMultipleStocks]
  split
  · split
    · dsimp only
      cases opts.onBatchProvided <;> simp
    · simp
  · dsimp only
    have hch := runChunks_calls_chain time opts.onBatchProvided
      (chunkArray pairs (opts.batchSize.getD 2)) 0 st []
    simp only [List.filter_nil] at hch
    exact hch.tail

theorem processChunk_any_flag (now : ℕ) (st : ModuleState)
    (chunk : List (SymbolSpec × StockOutcome)) :
    ((processChunk now st chunk).1.any fun r => r.rateLimited)
      = chunk.any fun p => quoteTriggers (isRateLimited now st) p.2 := by
  simp only [processChunk]
  induction chunk with
  | nil => rfl
  | cons p rest ih =>
    simp only [List.map_cons, List.any_cons, ih, fetchQuoteResult_rateLimited]

theorem processChunk_state_of_no_flag (now : ℕ) (st : ModuleState)
    (chunk : List (SymbolSpec × StockOutcome))
    (h : ((processChunk now st chunk).1.any fun r => r.rateLimited) = false) :
    (processChunk now st chunk).2 = st := by
  rw [processChunk_any_flag] at h
  simp [processChunk, h]

/-- Claim C1 counterexample: 3 chunks of size 2, a rate-limited result in
chunk 2 (symbol D).  The run returns only chunk 1's quotes (symbols A, B);
chunk 2's successful quote (symbol C, non-null price) is NOT in the
returned list, contradicting the claim that the rate-limited chunk's
non-null results still appear; chunk 3 (symbols E, F) is never fetched. -/
theorem c1_counterexample :
    ((fetchMultipleStocks (fun _ => 0) ⟨0, []⟩ pairsC1
        ⟨some 2, none, false⟩).results.map fun r => r.symbol) = ["A", "B"] ∧
    "C" ∉ ((fetchMultipleStocks (fun _ => 0) ⟨0, []⟩ pairsC1
        ⟨some 2, none, false⟩).results.map fun r => r.symbol) ∧
    (fetchQuoteResult false "C" "C" "C" (okQuote "C" 3).2).price.isSome = true ∧
    (fetchMultipleStocks (fun _ => 0) ⟨0, []⟩ pairsC1
        ⟨some 2, none, false⟩).fetched
      = [⟨"A", "A", "A"⟩, ⟨"B", "B", "B"⟩, ⟨"C", "C", "C"⟩, ⟨"D", "D", "D"⟩] := by
  decide

/-- Claim C1 amended: when some quote in a chunk carries the rate-limited
flag, no further chunks are attempted and that chunk's results are
DISCARDED (the loop breaks before appending them), so only strictly
earlier chunks' non-null-price results appear in the returned list; the
flagged chunk itself was fetched, later chunks are not. -/
theorem c1_stop_discards_chunk (time : ℕ → ℕ) (st : ModuleState)
    (pairs : List (SymbolSpec × StockOutcome)) (opts : FetchOptions)
    (c1 c2 : List (SymbolSpec × StockOutcome))
    (rest : List (List (SymbolSpec × StockOutcome)))
    (hch : chunkArray pairs (opts.batchSize.getD 2) = c1 :: c2 :: rest)
    (h0 : isRateLimited (time 0) st = false)
    (h1 : isRateLimited (time 1) st = false)
    (hf1 : ((processChunk (time 0) st c1).1.any fun r => r.rateLimited) = false)
    (hf2 : ((processChunk (time 1) st c2).1.any fun r => r.rateLimited) = true) :
    (fetchMultipleStocks time st pairs opts).results
      = ((processChunk (time 0) st c1).1.filter fun r => r.price.isSome) ∧
    (fetchMultipleStocks time st pairs opts).fetched
      = (c1.map fun p => p.1) ++ (c2.map fun p => p.1) := by
  have hst1 : (processChunk (time 0) st c1).2 = st :=
    processChunk_state_of_no_flag (time 0) st c1 hf1
  simp only [fetchMultipleStocks, hch, h0, Bool.false_eq_true, if_false, runChunks,
    hst1, hf1, zero_add, h1, hf2, if_true, List.nil_append, List.append_nil]
  exact ⟨by trivial, by trivial⟩

theorem c1_stop_discards_chunk_witness :
    (fetchMultipleStocks (fun _ => 0) ⟨0, []⟩ pairsC1 ⟨some 2, none, false⟩).results
      = ((processChunk 0 ⟨0, []⟩ [okQuote "A" 1, okQuote "B" 2]).1.filter
          fun r => r.price.isSome) ∧
    (fetchMultipleStocks (fun _ => 0) ⟨0, []⟩ pairsC1 ⟨some 2, none, false⟩).fetched
      = ([okQuote "A" 1, okQuote "B" 2].map fun p => p.1)
        ++ ([okQuote "C" 3, rlQuote "D"].map fun p => p.1) :=
  c1_stop_discards_chunk (fun _ => 0) ⟨0, []⟩ pairsC1 ⟨some 2, none, false⟩
    [okQuote "A" 1, okQuote "B" 2] [okQuote "C" 3, rlQuote "D"]
    [[okQuote "E" 5, okQuote "F" 6]]
    (by decide) (by decide) (by decide) (by decide) (by decide)

theorem fetchStockQuote_success (now : ℕ) (st : ModuleState)
    (symbol name display : String) (status : ℕ) (m : Meta)
    (hok : respOk status = true) (hlim : isRateLimited now st = false) :
    (fetchStockQuote now st symbol name display (.resp status (.parsed (some m)))).1
      = ⟨symbol, name, display, some m.regularMarketPrice,
         some ((m.regularMarketPrice - prevCloseOf m) / prevCloseOf m * 100),
         false⟩ := by
  have h429 : status ≠ 429 := by
    intro habs
    rw [habs] at hok
    exact absurd hok (by decide)
  simp only [fetchStockQuote, fetchQuoteResult, hlim, Bool.false_eq_true, if_false]
  rw [if_neg h429]
  simp [hok]

/-- Claim C7 counterexample: with chartPreviousClose present but equal to
0 and previousClose equal to 100, the claim's reference (the present
chart-specific field, captured by specPrevClose) is 0, but the code's
reference is 100: the change the code returns is computed from
prevCloseOf, which here differs from the claimed reference. -/
theorem c7_counterexample :
    (⟨110, some 0, some 100⟩ : Meta).chartPreviousClose = some 0 ∧
    specPrevClose ⟨110, some 0, some 100⟩ = 0 ∧
    prevCloseOf ⟨110, some 0, some 100⟩ = 100 ∧
    prevCloseOf ⟨110, some 0, some 100⟩ ≠ specPrevClose ⟨110, some 0, some 100⟩ ∧
    (fetchStockQuote 0 ⟨0, []⟩ "X" "X" "X"
        (.resp 200 (.parsed (some ⟨110, some 0, some 100⟩)))).1.change
      = some (((110 : ℚ) - prevCloseOf ⟨110, some 0, some 100⟩)
          / prevCloseOf ⟨110, some 0, some 100⟩ * 100) := by
  refine ⟨rfl, rfl, by decide, by decide, ?_⟩
  rw [fetchStockQuote_success 0 ⟨0, []⟩ "X" "X" "X" 200 ⟨110, some 0, some 100⟩
    (by decide) (by decide)]

/-- Claim C7 amended: on a successful parsed response the reference
previous-close is the chart-specific field when present AND truthy
(non-zero), otherwise the generic field when present and truthy,
otherwise the current price itself (0% change when the price is
non-zero); the returned change is (price − reference) / reference × 100. -/
theorem c7_prevclose_truthy (now : ℕ) (st : ModuleState)
    (symbol name display : String) (status : ℕ) (m : Meta)
    (hok : respOk status = true) (hlim : isRateLimited now st = false) :
    (fetchStockQuote now st symbol name display
        (.resp status (.parsed (some m)))).1.price = some m.regularMarketPrice ∧
    (fetchStockQuote now st symbol name display
        (.resp status (.parsed (some m)))).1.change
      = some ((m.regularMarketPrice - prevCloseOf m) / prevCloseOf m * 100) ∧
    (∀ x, m.chartPreviousClose = some x → x ≠ 0 → prevCloseOf m = x) ∧
    ((m.chartPreviousClose = none ∨ m.chartPreviousClose = some 0) →
      ∀ y, m.previousClose = some y → y ≠ 0 → prevCloseOf m = y) ∧
    ((m.chartPreviousClose = none ∨ m.chartPreviousClose = some 0) →
      (m.previousClose = none ∨ m.previousClose = some 0) →
      prevCloseOf m = m.regularMarketPrice) ∧
    (m.chartPreviousClose = none → m.previousClose = none →
      m.regularMarketPrice ≠ 0 →
      (fetchStockQuote now st symbol name display
          (.resp status (.parsed (some m)))).1.change = some 0) := by
  have hq := fetchStockQuote_success now st symbol name display status m hok hlim
  refine ⟨by rw [hq], by rw [hq], ?_, ?_, ?_, ?_⟩
  · intro x hx hx0
    simp [prevCloseOf, jsOrQ, hx, hx0]
  · rintro (hc | hc) y hy hy0 <;> simp [prevCloseOf, jsOrQ, hc, hy, hy0]
  · rintro (hc | hc) (hp | hp) <;> simp [prevCloseOf, jsOrQ, hc, hp]
  · intro hc hp hz
    rw [hq]
    simp [prevCloseOf, jsOrQ, hc, hp, sub_self, zero_div, zero_mul]

theorem c7_prevclose_truthy_witness :
    (fetchStockQuote 0 ⟨0, []⟩ "X" "X" "X"
        (.resp 200 (.parsed (some ⟨110, some 90, some 80⟩)))).1.change
      = some (((110 : ℚ) - prevCloseOf ⟨110, some 90, some 80⟩)
          / prevCloseOf ⟨110, some 90, some 80⟩ * 100) ∧
    prevCloseOf ⟨110, some 90, some 80⟩ = 90 :=
  ⟨(c7_prevclose_truthy 0 ⟨0, []⟩ "X" "X" "X" 200 ⟨110, some 90, some 80⟩
      (by decide) (by decide)).2.1,
   (c7_prevclose_truthy 0 ⟨0, []⟩ "X" "X" "X" 200 ⟨110, some 90, some 80⟩
      (by decide) (by decide)).2.2.1 90 rfl (by decide)⟩

/-- Claim C9: the previous-close fallback treats a falsy (zero) field
value as absent: when chartPreviousClose is present but 0, the generic
previousClose (if non-zero) — or, failing that, the current price — is
the reference instead of the 0 value (NaN is outside the rational
embedding). -/
theorem c9_falsy_prevclose (now : ℕ) (st : ModuleState)
    (symbol name display : String) (status : ℕ) (m : Meta)
    (hok : respOk status = true) (hlim : isRateLimited now st = false)
    (h0 : m.chartPreviousClose = some 0) :
    (∀ y, m.previousClose = some y → y ≠ 0 →
      prevCloseOf m = y ∧
      (fetchStockQuote now st symbol name display
          (.resp status (.parsed (some m)))).1.change
        = some ((m.regularMarketPrice - y) / y * 100)) ∧
    ((m.previousClose = none ∨ m.previousClose = some 0) →
      prevCloseOf m = m.regularMarketPrice) := by
  have hq := fetchStockQuote_success now st symbol name display status m hok hlim
  constructor
  · intro y hy hy0
    have hpc : prevCloseOf m = y := by
      simp [prevCloseOf, jsOrQ, h0, hy, hy0]
    exact ⟨hpc, by rw [hq, hpc]⟩
  · rintro (hp | hp) <;> simp [prevCloseOf, jsOrQ, h0, hp]

theorem c9_falsy_prevclose_witness :
    prevCloseOf ⟨110, some 0, some 100⟩ = 100 ∧
    (fetchStockQuote 0 ⟨0, []⟩ "X" "X" "X"
        (.resp 200 (.parsed (some ⟨110, some 0, some 100⟩)))).1.change
      = some (((110 : ℚ) - 100) / 100 * 100) :=
  (c9_falsy_prevclose 0 ⟨0, []⟩ "X" "X" "X" 200 ⟨110, some 0, some 100⟩
    (by decide) (by decide) rfl).1 100 rfl (by decide)

/-- Claim C8: fetchCrypto returns exactly one CryptoData per configured
id, in the configured mapping's declared order; an id the provider
response omits yields an entry with price 0 and change 0; on any error
(non-2xx response, thrown error, parse failure) it returns the empty
list, never partial results (and the embedding is a total function, so
no exception propagates). -/
theorem c8_fetchCrypto (cm : List (String × CryptoInfo)) (status : ℕ)
    (data : List (String × (ℚ × ℚ))) (hok : respOk status = true) :
    (fetchCrypto cm (.resp status (.parsed data))).length = cm.length ∧
    (∀ (i : ℕ) (id : String) (info : CryptoInfo),
      cm[i]? = some (id, info) → data.lookup id = none →
      (fetchCrypto cm (.resp status (.parsed data)))[i]?
        = some ⟨info.name, info.symbol, 0, 0⟩) ∧
    (∀ (i : ℕ) (id : String) (info : CryptoInfo) (pc ch : ℚ),
      cm[i]? = some (id, info) → data.lookup id = some (pc, ch) →
      (fetchCrypto cm (.resp status (.parsed data)))[i]?
        = some ⟨info.name, info.symbol, pc, ch⟩) ∧
    fetchCrypto cm .netThrow = [] ∧
    (∀ (status2 : ℕ) (body : CryptoBody), respOk status2 = false →
      fetchCrypto cm (.resp status2 body) = []) ∧
    fetchCrypto cm (.resp status .jsonThrow) = [] := by
  refine ⟨?_, ?_, ?_, rfl, ?_, ?_⟩
  · simp [fetchCrypto, hok]
  · intro i id info hi hlk
    simp [fetchCrypto, hok, List.getElem?_map, hi, hlk]
  · intro i id info pc ch hi hlk
    simp [fetchCrypto, hok, List.getElem?_map, hi, hlk]
  · intro status2 body hsb
    simp [fetchCrypto, hsb]
  · simp [fetchCrypto, hok]

theorem c8_fetchCrypto_witness :
    (fetchCrypto [("bitcoin", ⟨"Bitcoin", "BTC"⟩), ("ethereum", ⟨"Ethereum", "ETH"⟩)]
        (.resp 200 (.parsed [("bitcoin", (50000, 2))]))).length = 2 ∧
    (fetchCrypto [("bitcoin", ⟨"Bitcoin", "BTC"⟩), ("ethereum", ⟨"Ethereum", "ETH"⟩)]
        (.resp 200 (.parsed [("bitcoin", (50000, 2))])))[1]?
      = some ⟨"Ethereum", "ETH", 0, 0⟩ ∧
    (fetchCrypto [("bitcoin", ⟨"Bitcoin", "BTC"⟩), ("ethereum", ⟨"Ethereum", "ETH"⟩)]
        (.resp 200 (.parsed [("bitcoin", (50000, 2))])))[0]?
      = some ⟨"Bitcoin", "BTC", 50000, 2⟩ ∧
    fetchCrypto [("bitcoin", ⟨"Bitcoin", "BTC"⟩), ("ethereum", ⟨"Ethereum", "ETH"⟩)]
        (.resp 500 .jsonThrow) = [] :=
  ⟨(c8_fetchCrypto [("bitcoin", ⟨"Bitcoin", "BTC"⟩), ("ethereum", ⟨"Ethereum", "ETH"⟩)]
      200 [("bitcoin", (50000, 2))] (by decide)).1,
   (c8_fetchCrypto [("bitcoin", ⟨"Bitcoin", "BTC"⟩), ("ethereum", ⟨"Ethereum", "ETH"⟩)]
      200 [("bitcoin", (50000, 2))] (by decide)).2.1 1 "ethereum" ⟨"Ethereum", "ETH"⟩
      (by decide) (by decide),
   (c8_fetchCrypto [("bitcoin", ⟨"Bitcoin", "BTC"⟩), ("ethereum", ⟨"Ethereum", "ETH"⟩)]
      200 [("bitcoin", (50000, 2))] (by decide)).2.2.1 0 "bitcoin" ⟨"Bitcoin", "BTC"⟩
      50000 2 (by decide) (by decide),
   (c8_fetchCrypto [("bitcoin", ⟨"Bitcoin", "BTC"⟩), ("ethereum", ⟨"Ethereum", "ETH"⟩)]
      200 [("bitcoin", (50000, 2))] (by decide)).2.2.2.2.1 500 .jsonThrow (by decide)⟩

end Markets
